import Mathlib

/-!
Verification development for the TTS emotion-router core
(`astrbot_plugin_tts_emotion_router`).

Texts are modelled as `List Char`.  The regular expressions of
`core/marker.py` are `^`-anchored patterns built from character classes,
literal (case-insensitive) words and a bounded amount of backtracking;
they are embedded as deterministic recursive matchers that consume a
prefix of the character list and return the remaining suffix.
-/

/-- The four canonical emotions (`EMOTIONS` in `core/constants.py`). -/
inductive Emotion
  | happy
  | sad
  | angry
  | neutral
deriving DecidableEq

/-- The lowercase spelling of an emotion, as it appears in markers. -/
def emoChars : Emotion → List Char
  | .happy => ['h', 'a', 'p', 'p', 'y']
  | .sad => ['s', 'a', 'd']
  | .angry => ['a', 'n', 'g', 'r', 'y']
  | .neutral => ['n', 'e', 'u', 't', 'r', 'a', 'l']

/-- Python `\s` on `str` patterns: Unicode whitespace (the characters
Python's `re` treats as whitespace, including the ASCII ones). -/
def pySpace (c : Char) : Bool :=
  c = ' ' || c = '\t' || c = '\n' || c = '\r' || c = '\x0b' || c = '\x0c' ||
  c = '\x1c' || c = '\x1d' || c = '\x1e' || c = '\x1f' || c = '\x85' ||
  c = '\xa0' || c = '\u1680' ||
  ('\u2000' ≤ c && c ≤ '\u200A') ||
  c = '\u2028' || c = '\u2029' || c = '\u202F' || c = '\u205F' || c = '\u3000'

/-- The character class `[\s\ufeff]` used before head markers. -/
def wsBom (c : Char) : Bool :=
  pySpace c || c = '\uFEFF'

/-- Opening brackets accepted by the marker patterns: `[\[\(【]`. -/
def isOpenBr (c : Char) : Bool :=
  c = '[' || c = '(' || c = '【'

/-- Closing brackets accepted by the marker patterns: `[\]\)】]`. -/
def isCloseBr (c : Char) : Bool :=
  c = ']' || c = ')' || c = '】'

/-- The label separator class `[:：-]` (half/full-width colon, hyphen). -/
def isSepCh (c : Char) : Bool :=
  c = ':' || c = '：' || c = '-'

/-- The trailing punctuation class `[,，。:：-]` consumed after a
head token. -/
def isPunctTrail (c : Char) : Bool :=
  c = ',' || c = '，' || c = '。' || c = ':' || c = '：' || c = '-'

/-- Case-insensitive character comparison, as under `re.I`. -/
def charEqCI (c d : Char) : Bool :=
  c.toLower = d.toLower

/-- Match a literal word case-insensitively at the head of `s`; return
the remaining suffix on success. -/
def matchLitCI : List Char → List Char → Option (List Char)
  | [], s => some s
  | _ :: _, [] => none
  | l :: ls, c :: cs => if charEqCI c l then matchLitCI ls cs else none

/-- The default marker tag `DEFAULT_EMO_MARKER_TAG = "EMO"`. -/
def EMO_TAG : List Char := ['E', 'M', 'O']

/-- Match the alternation `(happy|sad|angry|neutral)` (case-insensitive)
at the head of `s`.  The four words start with distinct letters, so the
regex alternation is deterministic. -/
def matchLbl (s : List Char) : Option (Emotion × List Char) :=
  match matchLitCI (emoChars .happy) s with
  | some r => some (.happy, r)
  | none =>
    match matchLitCI (emoChars .sad) s with
    | some r => some (.sad, r)
    | none =>
      match matchLitCI (emoChars .angry) s with
      | some r => some (.angry, r)
      | none =>
        match matchLitCI (emoChars .neutral) s with
        | some r => some (.neutral, r)
        | none => none

/-- First alternative of `_head_token_re` (after the `[\s\ufeff]*`):
`[\[\(【]\s*TAG\s*(?:[:：-]\s*(happy|sad|angry|neutral))?\s*[\]\)】]`.
When the optional labelled group cannot be completed the regex engine
retries without it, which requires the closing bracket directly after
the whitespace following the tag. -/
def parseAlt1 (tag : List Char) (s : List Char) : Option (List Char × Option Emotion) :=
  match s with
  | [] => none
  | c :: s1 =>
    if isOpenBr c then
      let s2 := s1.dropWhile pySpace
      match matchLitCI tag s2 with
      | none => none
      | some s3 =>
        let s4 := s3.dropWhile pySpace
        let noGroup : Option (List Char × Option Emotion) :=
          match s4 with
          | d :: s5 => if isCloseBr d then some (s5, none) else none
          | [] => none
        match s4 with
        | d :: s5 =>
          if isSepCh d then
            let s6 := s5.dropWhile pySpace
            match matchLbl s6 with
            | some (emo, s7) =>
              let s8 := s7.dropWhile pySpace
              match s8 with
              | e :: s9 => if isCloseBr e then some (s9, some emo) else noGroup
              | [] => noGroup
            | none => noGroup
          else noGroup
        | [] => noGroup
    else none

/-- Second alternative of `_head_token_re`:
`(?:TAG|emo)\s*(?:[:：-]\s*(happy|sad|angry|neutral))?`. -/
def parseAlt2 (tag : List Char) (s : List Char) : Option (List Char × Option Emotion) :=
  let afterTag : Option (List Char) :=
    match matchLitCI tag s with
    | some r => some r
    | none => matchLitCI ['e', 'm', 'o'] s
  match afterTag with
  | none => none
  | some s1 =>
    let s2 := s1.dropWhile pySpace
    match s2 with
    | d :: s3 =>
      if isSepCh d then
        match matchLbl (s3.dropWhile pySpace) with
        | some (emo, s5) => some (s5, some emo)
        | none => some (s2, none)
      else some (s2, none)
    | [] => some (s2, none)

/-- `_head_token_re`: leading `[\s\ufeff]*`, the two alternatives, then
the trailer `\s*[,，。:：-]*\s*`. -/
def headTokenMatch (tag : List Char) (t : List Char) : Option (List Char × Option Emotion) :=
  let s := t.dropWhile wsBom
  match
    (match parseAlt1 tag s with
     | some r => some r
     | none => parseAlt2 tag s) with
  | some (rest, emo) =>
    some (((rest.dropWhile pySpace).dropWhile isPunctTrail).dropWhile pySpace, emo)
  | none => none

/-- Letters accepted by the `[a-z]` class under `re.I`. -/
def isAsciiLetter (c : Char) : Bool :=
  ('a' ≤ c && c ≤ 'z') || ('A' ≤ c && c ≤ 'Z')

/-- `_head_anylabel_re`:
`^[\s\ufeff]*[\[\(【]\s*TAG\s*[:：-]\s*([a-z]+)\s*[\]\)】]`; returns
the remaining suffix and the raw captured label. -/
def headAnyLabelMatch (tag : List Char) (t : List Char) : Option (List Char × List Char) :=
  match t.dropWhile wsBom with
  | [] => none
  | c :: s1 =>
    if isOpenBr c then
      match matchLitCI tag (s1.dropWhile pySpace) with
      | none => none
      | some s3 =>
        match s3.dropWhile pySpace with
        | d :: s5 =>
          if isSepCh d then
            let s6 := s5.dropWhile pySpace
            let raw := s6.takeWhile isAsciiLetter
            if raw = [] then none
            else
              match (s6.dropWhile isAsciiLetter).dropWhile pySpace with
              | e :: s9 => if isCloseBr e then some (s9, raw) else none
              | [] => none
          else none
        | [] => none
    else none

/-- `_marker_any_re`:
`^[\s\ufeff]*[\[\(【]\s*TAG\s*(?:[:：-]\s*[a-z]*)?\s*[\]\)】]`.
Returns the suffix after the consumed marker. -/
def markerAnyMatch (tag : List Char) (t : List Char) : Option (List Char) :=
  match t.dropWhile wsBom with
  | [] => none
  | c :: s1 =>
    if isOpenBr c then
      match matchLitCI tag (s1.dropWhile pySpace) with
      | none => none
      | some s3 =>
        let s4 := s3.dropWhile pySpace
        let noGroup : Option (List Char) :=
          match s4 with
          | d :: s5 => if isCloseBr d then some s5 else none
          | [] => none
        match s4 with
        | d :: s5 =>
          if isSepCh d then
            match ((s5.dropWhile pySpace).dropWhile isAsciiLetter).dropWhile pySpace with
            | e :: s9 => if isCloseBr e then some s9 else noGroup
            | [] => noGroup
          else noGroup
        | [] => noGroup
    else none

/-- Python `str.strip()`: drop whitespace from both ends. -/
def stripList (l : List Char) : List Char :=
  (l.dropWhile pySpace).rdropWhile pySpace

/-- Lowercase every character, as Python `str.lower()` (ASCII-faithful). -/
def toLowerList (l : List Char) : List Char :=
  l.map Char.toLower

/-- `EMOTION_SYNONYMS` from `core/constants.py`, in dict insertion
order. -/
def EMOTION_SYNONYMS : List (Emotion × List (List Char)) :=
  [ (.happy,
      ["happy", "joy", "joyful", "cheerful", "delighted", "excited",
       "smile", "positive", "开心", "快乐", "高兴", "喜悦", "兴奋", "愉快"].map String.data),
    (.sad,
      ["sad", "sorrow", "sorrowful", "depressed", "down", "unhappy",
       "cry", "crying", "tearful", "blue", "upset", "伤心", "难过",
       "沮丧", "低落", "悲伤", "流泪"].map String.data),
    (.angry,
      ["angry", "mad", "furious", "annoyed", "irritated", "rage",
       "rageful", "wrath", "生气", "愤怒", "恼火", "气愤"].map String.data),
    (.neutral,
      ["neutral", "calm", "plain", "normal", "objective", "ok", "fine",
       "meh", "average", "confused", "uncertain", "unsure", "平静",
       "冷静", "一般", "中立", "客观", "困惑", "迷茫"].map String.data) ]

/-- `EmotionMarkerProcessor.normalize_label`: strip + lowercase the raw
label, then look it up in the synonym table. -/
def normalize_label (raw : List Char) : Option Emotion :=
  let lbl := stripList (toLowerList raw)
  match EMOTION_SYNONYMS.find? (fun p => p.2.contains lbl) with
  | some p => some p.1
  | none => none

/-- Guard of the third branch of `strip_head`:
`text.lstrip().startswith(("[", "【", "("))`. -/
def bracketGuard (t : List Char) : Bool :=
  match t.dropWhile pySpace with
  | [] => false
  | c :: _ => c = '[' || c = '【' || c = '('

/-- `EmotionMarkerProcessor.strip_head` (for a given tag): try the
four-value head token, then the any-label form normalised via synonyms,
then the loose any-marker removal guarded by a bracket check. -/
def strip_head (tag : List Char) (t : List Char) : List Char × Option Emotion :=
  match t with
  | [] => ([], none)
  | _ :: _ =>
    match headTokenMatch tag t with
    | some (rest, emo) => (stripList rest, emo)
    | none =>
      match headAnyLabelMatch tag t with
      | some (rest, raw) => (stripList rest, normalize_label raw)
      | none =>
        if bracketGuard t then
          match markerAnyMatch tag t with
          | some rest => (stripList rest, none)
          | none => (stripList t, none)
        else (t, none)

theorem matchLitCI_suffix : ∀ (lit s r : List Char), matchLitCI lit s = some r → r <:+ s := by
  intro lit
  induction lit with
  | nil => intro s r h; simp only [matchLitCI, Option.some.injEq] at h; exact h ▸ List.suffix_refl r
  | cons l ls ih =>
    intro s r h
    cases s with
    | nil => simp [matchLitCI] at h
    | cons c cs =>
      simp only [matchLitCI] at h
      split at h
      · exact (ih cs r h).trans (List.suffix_cons c cs)
      · exact absurd h (by simp)

theorem matchLbl_suffix (s : List Char) (e : Emotion) (r : List Char)
    (h : matchLbl s = some (e, r)) : r <:+ s := by
  simp only [matchLbl] at h
  repeat' split at h
  all_goals simp_all
  all_goals exact matchLitCI_suffix _ _ _ (by assumption)

theorem parseAlt1_suffix (tag s : List Char) (r : List Char) (e : Option Emotion)
    (h : parseAlt1 tag s = some (r, e)) : r <:+ s := by
  cases s with
  | nil => simp [parseAlt1] at h
  | cons c s1 =>
    have hng : ∀ (u r' : List Char) (e' : Option Emotion), u <:+ s1 →
        (match u with
          | d :: s5 => if isCloseBr d then some (s5, (none : Option Emotion)) else none
          | [] => none) = some (r', e') → r' <:+ s1 := by
      intro u r' e' hu hg
      split at hg
      case h_2 => exact absurd hg (by simp)
      case h_1 d s5 =>
        split at hg
        · simp only [Option.some.injEq, Prod.mk.injEq] at hg
          exact hg.1 ▸ (List.suffix_cons d s5).trans hu
        · exact absurd hg (by simp)
    simp only [parseAlt1] at h
    split at h
    case isFalse => exact absurd h (by simp)
    case isTrue =>
      have hs2 : s1.dropWhile pySpace <:+ s1 := List.dropWhile_suffix pySpace
      split at h
      case h_1 => exact absurd h (by simp)
      case h_2 s3 hlit =>
        have hs3 : s3 <:+ s1 :=
          (matchLitCI_suffix _ _ _ hlit).trans hs2
        have hs4 : s3.dropWhile pySpace <:+ s1 :=
          (List.dropWhile_suffix pySpace).trans hs3
        split at h
        case h_2 heq =>
          exact absurd h (by simp)
        case h_1 d s5 heq =>
          have hds5 : d :: s5 <:+ s1 := heq ▸ hs4
          have hs5 : s5 <:+ s1 := (List.suffix_cons d s5).trans hds5
          split at h
          case isFalse => exact (hng _ r e hds5 h).trans (List.suffix_cons c s1)
          case isTrue =>
            split at h
            case h_2 => exact (hng _ r e hds5 h).trans (List.suffix_cons c s1)
            case h_1 emo s7 hlbl =>
              have hs7 : s7 <:+ s1 :=
                (matchLbl_suffix _ _ _ hlbl).trans ((List.dropWhile_suffix pySpace).trans hs5)
              have hs8 : s7.dropWhile pySpace <:+ s1 :=
                (List.dropWhile_suffix pySpace).trans hs7
              split at h
              case h_2 => exact (hng _ r e hds5 h).trans (List.suffix_cons c s1)
              case h_1 e9 s9 heq9 =>
                have hs9 : s9 <:+ s1 := (List.suffix_cons e9 s9).trans (heq9 ▸ hs8)
                split at h
                · simp only [Option.some.injEq, Prod.mk.injEq] at h
                  exact h.1 ▸ (hs9.trans (List.suffix_cons c s1))
                · exact (hng _ r e hds5 h).trans (List.suffix_cons c s1)

theorem parseAlt2_suffix (tag s : List Char) (r : List Char) (e : Option Emotion)
    (h : parseAlt2 tag s = some (r, e)) : r <:+ s := by
  simp only [parseAlt2] at h
  split at h
  case h_1 => exact absurd h (by simp)
  case h_2 s1 htag =>
    have hs1 : s1 <:+ s := by
      split at htag
      case h_1 r0 heq =>
        injection htag with htag0
        exact htag0 ▸ matchLitCI_suffix tag s r0 heq
      case h_2 =>
        exact matchLitCI_suffix ['e', 'm', 'o'] s s1 htag
    have hs2 : s1.dropWhile pySpace <:+ s :=
      (List.dropWhile_suffix pySpace).trans hs1
    split at h
    case h_2 heq =>
      simp only [Option.some.injEq, Prod.mk.injEq] at h
      exact h.1 ▸ hs2
    case h_1 d s3 heq =>
      have hds3 : d :: s3 <:+ s := heq ▸ hs2
      have hs3 : s3 <:+ s := (List.suffix_cons d s3).trans hds3
      split at h
      case isFalse =>
        simp only [Option.some.injEq, Prod.mk.injEq] at h
        exact h.1 ▸ hs2
      case isTrue =>
        split at h
        case h_1 emo s5 hlbl =>
          simp only [Option.some.injEq, Prod.mk.injEq] at h
          exact h.1 ▸ ((matchLbl_suffix _ _ _ hlbl).trans
            ((List.dropWhile_suffix pySpace).trans hs3))
        case h_2 =>
          simp only [Option.some.injEq, Prod.mk.injEq] at h
          exact h.1 ▸ hs2

theorem headTokenMatch_suffix (tag t : List Char) (r : List Char) (e : Option Emotion)
    (h : headTokenMatch tag t = some (r, e)) : r <:+ t := by
  simp only [headTokenMatch] at h
  split at h
  case h_2 => exact absurd h (by simp)
  case h_1 rest emo halt =>
    have hrest : rest <:+ t.dropWhile wsBom := by
      split at halt
      case h_1 r0 heq =>
        injection halt with halt0
        subst halt0
        exact parseAlt1_suffix tag (t.dropWhile wsBom) rest emo (by rw [heq])
      case h_2 =>
        exact parseAlt2_suffix tag (t.dropWhile wsBom) rest emo halt
    simp only [Option.some.injEq, Prod.mk.injEq] at h
    refine h.1 ▸ ?_
    exact ((List.dropWhile_suffix pySpace).trans
      ((List.dropWhile_suffix isPunctTrail).trans
        ((List.dropWhile_suffix pySpace).trans hrest))).trans
      ((List.dropWhile_suffix wsBom).trans (List.suffix_refl t))

theorem headAnyLabelMatch_suffix (tag t : List Char) (r raw : List Char)
    (h : headAnyLabelMatch tag t = some (r, raw)) : r <:+ t := by
  have hwb : t.dropWhile wsBom <:+ t := List.dropWhile_suffix wsBom
  simp only [headAnyLabelMatch] at h
  split at h
  case h_1 => exact absurd h (by simp)
  case h_2 c s1 heq =>
    have hs1 : s1 <:+ t := (List.suffix_cons c s1).trans (heq ▸ hwb)
    split at h
    case isFalse => exact absurd h (by simp)
    case isTrue =>
      split at h
      case h_1 => exact absurd h (by simp)
      case h_2 s3 hlit =>
        have hs3 : s3 <:+ t :=
          (matchLitCI_suffix _ _ _ hlit).trans ((List.dropWhile_suffix pySpace).trans hs1)
        split at h
        case h_2 => exact absurd h (by simp)
        case h_1 d s5 heq5 =>
          have hs5 : s5 <:+ t :=
            (List.suffix_cons d s5).trans (heq5 ▸ (List.dropWhile_suffix pySpace).trans hs3)
          split at h
          case isFalse => exact absurd h (by simp)
          case isTrue =>
            split at h
            case isTrue => exact absurd h (by simp)
            case isFalse =>
              have hs6 : (s5.dropWhile pySpace).dropWhile isAsciiLetter <:+ t := by
                refine (List.dropWhile_suffix isAsciiLetter).trans ?_
                refine (List.dropWhile_suffix pySpace).trans hs5
              split at h
              case h_2 => exact absurd h (by simp)
              case h_1 e9 s9 heq9 =>
                split at h
                · simp only [Option.some.injEq, Prod.mk.injEq] at h
                  refine h.1 ▸ ?_
                  exact (List.suffix_cons e9 s9).trans
                    (heq9 ▸ (List.dropWhile_suffix pySpace).trans hs6)
                · exact absurd h (by simp)

theorem markerAnyMatch_suffix (tag t : List Char) (r : List Char)
    (h : markerAnyMatch tag t = some r) : r <:+ t := by
  have hwb : t.dropWhile wsBom <:+ t := List.dropWhile_suffix wsBom
  simp only [markerAnyMatch] at h
  split at h
  case h_1 => exact absurd h (by simp)
  case h_2 c s1 heq =>
    have hs1 : s1 <:+ t := (List.suffix_cons c s1).trans (heq ▸ hwb)
    have hng : ∀ (u r' : List Char), u <:+ t →
        (match u with
          | d :: s5 => if isCloseBr d then some s5 else none
          | [] => none) = some r' → r' <:+ t := by
      intro u r' hu hg
      split at hg
      case h_2 => exact absurd hg (by simp)
      case h_1 d s5 =>
        split at hg
        · simp only [Option.some.injEq] at hg
          exact hg ▸ (List.suffix_cons d s5).trans hu
        · exact absurd hg (by simp)
    split at h
    case isFalse => exact absurd h (by simp)
    case isTrue =>
      split at h
      case h_1 => exact absurd h (by simp)
      case h_2 s3 hlit =>
        have hs4 : s3.dropWhile pySpace <:+ t :=
          (List.dropWhile_suffix pySpace).trans
            ((matchLitCI_suffix _ _ _ hlit).trans ((List.dropWhile_suffix pySpace).trans hs1))
        split at h
        case h_2 heq4 => exact absurd h (by simp)
        case h_1 d s5 heq4 =>
          have hds5 : d :: s5 <:+ t := heq4 ▸ hs4
          have hs5 : s5 <:+ t := (List.suffix_cons d s5).trans hds5
          split at h
          case isFalse => exact hng _ r hds5 h
          case isTrue =>
            have hs6 : ((s5.dropWhile pySpace).dropWhile isAsciiLetter).dropWhile pySpace <:+ t :=
              (List.dropWhile_suffix pySpace).trans
                ((List.dropWhile_suffix isAsciiLetter).trans
                  ((List.dropWhile_suffix pySpace).trans hs5))
            split at h
            case h_2 => exact hng _ r hds5 h
            case h_1 e9 s9 heq9 =>
              split at h
              · simp only [Option.some.injEq] at h
                exact h ▸ (List.suffix_cons e9 s9).trans (heq9 ▸ hs6)
              · exact hng _ r hds5 h

theorem stripList_sublist (l : List Char) : List.Sublist (stripList l) l :=
  ((List.rdropWhile_prefix pySpace (l.dropWhile pySpace)).sublist).trans
    (List.dropWhile_suffix pySpace).sublist

theorem strip_head_sublist (tag t : List Char) : List.Sublist (strip_head tag t).1 t := by
  unfold strip_head
  split
  case h_1 => simp
  case h_2 c1 cs1 =>
    split
    case h_1 rest emo hm =>
      exact (stripList_sublist rest).trans (headTokenMatch_suffix tag _ rest emo hm).sublist
    case h_2 =>
      split
      case h_1 rest raw hm =>
        exact (stripList_sublist rest).trans (headAnyLabelMatch_suffix tag _ rest raw hm).sublist
      case h_2 =>
        split
        · split
          case h_1 rest hm =>
            exact (stripList_sublist rest).trans (markerAnyMatch_suffix tag _ rest hm).sublist
          case h_2 => exact stripList_sublist (c1 :: cs1)
        · exact List.Sublist.refl (c1 :: cs1)

theorem strip_head_length_lt (tag t : List Char) (h : (strip_head tag t).1 ≠ t) :
    (strip_head tag t).1.length < t.length := by
  rcases Nat.lt_or_ge (strip_head tag t).1.length t.length with hlt | hge
  · exact hlt
  · exact absurd ((strip_head_sublist tag t).eq_of_length
      (Nat.le_antisymm ((strip_head_sublist tag t).length_le) hge)) h

/-- The head-stripping `while` loop of
`EmotionMarkerProcessor.strip_head_many`: repeatedly apply `strip_head`,
remembering the last emotion seen, until the text no longer changes. -/
def stripHeadLoop (tag : List Char) (t : List Char) (last : Option Emotion) :
    List Char × Option Emotion :=
  let r := strip_head tag t
  let last' := match r.2 with | some e => some e | none => last
  if h : r.1 = t then (t, last')
  else stripHeadLoop tag r.1 last'
termination_by t.length
decreasing_by exact strip_head_length_lt tag t h

/-- A match of `_marker_strict_re`
(`\[\s*TAG\s*:\s*(happy|sad|angry|neutral)\s*\]`, case-insensitive)
starting at the head of `l`; returns the suffix after the match. -/
def strictMatchAt (tag : List Char) (l : List Char) : Option (List Char) :=
  match l with
  | [] => none
  | c :: s1 =>
    if c = '[' then
      match matchLitCI tag (s1.dropWhile pySpace) with
      | none => none
      | some s3 =>
        match s3.dropWhile pySpace with
        | d :: s5 =>
          if d = ':' then
            match matchLbl (s5.dropWhile pySpace) with
            | some (_, s7) =>
              match s7.dropWhile pySpace with
              | e :: s9 => if e = ']' then some s9 else none
              | [] => none
            | none => none
          else none
        | [] => none
    else none

theorem strictMatchAt_suffix (tag : List Char) (c : Char) (cs r : List Char)
    (h : strictMatchAt tag (c :: cs) = some r) : r <:+ cs := by
  simp only [strictMatchAt] at h
  split at h
  case isFalse => exact absurd h (by simp)
  case isTrue =>
    split at h
    case h_1 => exact absurd h (by simp)
    case h_2 s3 hlit =>
      have hs3 : s3 <:+ cs :=
        (matchLitCI_suffix _ _ _ hlit).trans (List.dropWhile_suffix pySpace)
      split at h
      case h_2 => exact absurd h (by simp)
      case h_1 d s5 heq =>
        have hs5 : s5 <:+ cs :=
          (List.suffix_cons d s5).trans (heq ▸ (List.dropWhile_suffix pySpace).trans hs3)
        split at h
        case isFalse => exact absurd h (by simp)
        case isTrue =>
          split at h
          case h_2 => exact absurd h (by simp)
          case h_1 emo s7 hlbl =>
            have hs7 : s7 <:+ cs :=
              (matchLbl_suffix _ _ _ hlbl).trans ((List.dropWhile_suffix pySpace).trans hs5)
            split at h
            case h_2 => exact absurd h (by simp)
            case h_1 e9 s9 heq9 =>
              split at h
              · simp only [Option.some.injEq] at h
                exact h ▸ (List.suffix_cons e9 s9).trans
                  (heq9 ▸ (List.dropWhile_suffix pySpace).trans hs7)
              · exact absurd h (by simp)

/-- The global pass `_marker_strict_re.sub("", text)`: scan left to
right, removing non-overlapping strict-form markers. -/
def strictSubAll (tag : List Char) : List Char → List Char
  | [] => []
  | c :: cs =>
    match h : strictMatchAt tag (c :: cs) with
    | some rest => strictSubAll tag rest
    | none => c :: strictSubAll tag cs
termination_by l => l.length
decreasing_by
  · exact Nat.lt_succ_of_le ((strictMatchAt_suffix tag c s1 rest h).length_le)
  · exact Nat.lt_succ_self s1.length

/-- `EmotionMarkerProcessor.strip_head_many`: strip head markers in a
loop keeping the last emotion, then remove residual strict-form markers
anywhere in the text, then `strip()`. -/
def strip_head_many (tag : List Char) (t : List Char) : List Char × Option Emotion :=
  let r := stripHeadLoop tag t none
  (stripList (strictSubAll tag r.1), r.2)

/-- `strip_head` leaves a text unchanged when none of the head patterns
match and the bracket guard of the third branch is off. -/
theorem strip_head_noop (tag t : List Char)
    (h1 : headTokenMatch tag t = none) (h2 : headAnyLabelMatch tag t = none)
    (h3 : bracketGuard t = false) : strip_head tag t = (t, none) := by
  cases t with
  | nil => rfl
  | cons c cs =>
    unfold strip_head
    rw [h1, h2, h3]
    simp

/-- A strict-form head marker `[EMO:e]` for the default tag. -/
def markerBody (e : Emotion) : List Char :=
  'E' :: 'M' :: 'O' :: ':' :: (emoChars e ++ [']'])

/-- `[EMO:` ++ emotion ++ `]`. -/
def headMarker (e : Emotion) : List Char :=
  '[' :: markerBody e

/-- Concatenation of several head markers. -/
def joinMarkers : List Emotion → List Char
  | [] => []
  | e :: es => headMarker e ++ joinMarkers es

/-- The last element of `es` if any, else `acc` (the accumulator shape
of the head-stripping loop). -/
def lastOr (es : List Emotion) (acc : Option Emotion) : Option Emotion :=
  match es.getLast? with
  | some e => some e
  | none => acc

theorem lastOr_cons (e : Emotion) (es : List Emotion) (acc : Option Emotion) :
    lastOr (e :: es) acc = lastOr es (some e) := by
  cases es with
  | nil => simp [lastOr]
  | cons f fs =>
    unfold lastOr
    rw [List.getLast?_cons_cons]
    cases hx : (f :: fs).getLast? with
    | none => simp at hx
    | some g => simp

/-- Stripping one strict head marker from clean remainder text yields the
remainder and that marker's emotion. -/
theorem strip_head_marker (e : Emotion) (s : List Char)
    (h1 : s.dropWhile pySpace = s) (h2 : s.dropWhile isPunctTrail = s)
    (h3 : stripList s = s) :
    strip_head EMO_TAG (headMarker e ++ s) = (s, some e) := by
  have key : strip_head EMO_TAG (headMarker e ++ s) =
      (stripList (((s.dropWhile pySpace).dropWhile isPunctTrail).dropWhile pySpace),
        some e) := by
    cases e <;> rfl
  rw [key, h1, h2, h1, h3]

theorem rdropWhile_self_of_last (p : Char → Bool) (l : List Char)
    (h : ∀ c, l.getLast? = some c → p c = false) : l.rdropWhile p = l := by
  rw [List.rdropWhile_eq_self_iff]
  intro hl
  have hh := h (l.getLast hl) (List.getLast?_eq_getLast_of_ne_nil hl)
  simp [hh]

theorem last_not_space_of_clean (rest : List Char)
    (h1 : rest.dropWhile pySpace = rest) (h3 : stripList rest = rest) :
    ∀ c, rest.getLast? = some c → pySpace c = false := by
  intro c hc
  have hr : rest.rdropWhile pySpace = rest := by
    rw [stripList, h1] at h3
    exact h3
  rw [List.rdropWhile_eq_self_iff] at hr
  have hne : rest ≠ [] := by
    intro h
    subst h
    simp at hc
  have hg := hr hne
  rw [List.getLast?_eq_getLast_of_ne_nil hne] at hc
  injection hc with hc
  subst hc
  simpa using hg

theorem joinMarkers_getLast_close :
    ∀ es : List Emotion, es ≠ [] → (joinMarkers es).getLast? = some ']' := by
  intro es
  induction es with
  | nil => intro h; exact absurd rfl h
  | cons e es ih =>
    intro _
    show (joinMarkers (e :: es)).getLast? = some ']'
    rw [joinMarkers, List.getLast?_append]
    cases hes : es with
    | nil =>
      have hbase : (headMarker e).getLast? = some ']' := by cases e <;> rfl
      simp [joinMarkers, hbase]
    | cons f fs =>
      subst hes
      rw [ih (by simp)]
      rfl

theorem conds_join (es : List Emotion) (rest : List Char)
    (h1 : rest.dropWhile pySpace = rest) (h2 : rest.dropWhile isPunctTrail = rest)
    (h3 : stripList rest = rest) :
    (joinMarkers es ++ rest).dropWhile pySpace = joinMarkers es ++ rest ∧
    (joinMarkers es ++ rest).dropWhile isPunctTrail = joinMarkers es ++ rest ∧
    stripList (joinMarkers es ++ rest) = joinMarkers es ++ rest := by
  cases es with
  | nil =>
    exact ⟨h1, h2, h3⟩
  | cons e es' =>
    have hcons : joinMarkers (e :: es') ++ rest =
        '[' :: (markerBody e ++ (joinMarkers es' ++ rest)) := by
      simp [joinMarkers, headMarker]
    have c1 : (joinMarkers (e :: es') ++ rest).dropWhile pySpace =
        joinMarkers (e :: es') ++ rest := by
      rw [hcons, List.dropWhile_cons, show pySpace '[' = false from by decide]
      simp
    have c2 : (joinMarkers (e :: es') ++ rest).dropWhile isPunctTrail =
        joinMarkers (e :: es') ++ rest := by
      rw [hcons, List.dropWhile_cons, show isPunctTrail '[' = false from by decide]
      simp
    refine ⟨c1, c2, ?_⟩
    have hlast : ∀ c, (joinMarkers (e :: es') ++ rest).getLast? = some c →
        pySpace c = false := by
      intro c hc
      rw [List.getLast?_append] at hc
      cases hr : rest.getLast? with
      | some d =>
        rw [hr] at hc
        simp only [Option.or_some, Option.some.injEq] at hc
        exact hc ▸ last_not_space_of_clean rest h1 h3 d hr
      | none =>
        rw [hr] at hc
        rw [joinMarkers_getLast_close (e :: es') (by simp)] at hc
        simp only [Option.none_or, Option.some.injEq] at hc
        exact hc ▸ (by decide : pySpace ']' = false)
    rw [stripList, c1]
    exact rdropWhile_self_of_last pySpace _ hlast

theorem cons_append_ne (c : Char) (a s : List Char) : (c :: a) ++ s ≠ s := by
  intro h
  have hlen := congrArg List.length h
  simp [List.length_append] at hlen
  omega

theorem lastOr_none (es : List Emotion) : lastOr es none = es.getLast? := by
  unfold lastOr
  cases es.getLast? <;> rfl

theorem stripHeadLoop_markers (es : List Emotion) (rest : List Char)
    (h1 : rest.dropWhile pySpace = rest) (h2 : rest.dropWhile isPunctTrail = rest)
    (h3 : stripList rest = rest)
    (h4 : headTokenMatch EMO_TAG rest = none) (h5 : headAnyLabelMatch EMO_TAG rest = none)
    (h6 : bracketGuard rest = false) :
    ∀ acc, stripHeadLoop EMO_TAG (joinMarkers es ++ rest) acc = (rest, lastOr es acc) := by
  induction es with
  | nil =>
    intro acc
    rw [show joinMarkers [] ++ rest = rest from rfl]
    unfold stripHeadLoop
    rw [strip_head_noop EMO_TAG rest h4 h5 h6]
    simp [lastOr]
  | cons e es' ih =>
    intro acc
    rw [show joinMarkers (e :: es') ++ rest = headMarker e ++ (joinMarkers es' ++ rest) by
      simp [joinMarkers, List.append_assoc]]
    obtain ⟨c1, c2, c3⟩ := conds_join es' rest h1 h2 h3
    unfold stripHeadLoop
    rw [strip_head_marker e _ c1 c2 c3]
    have hne : ¬ ((joinMarkers es' ++ rest, some e).1 =
        headMarker e ++ (joinMarkers es' ++ rest)) := by
      intro h
      exact cons_append_ne '[' (markerBody e) (joinMarkers es' ++ rest) h.symm
    simp only [dif_neg hne]
    rw [ih (some e), lastOr_cons]


theorem strictMatchAt_none_of_head (tag : List Char) (c : Char) (cs : List Char)
    (h : ¬ c = '[') : strictMatchAt tag (c :: cs) = none := by
  unfold strictMatchAt
  simp [h]

theorem strictSubAll_eq_self_of_no_lbrack (tag : List Char) :
    ∀ l : List Char, (∀ c ∈ l, ¬ c = '[') → strictSubAll tag l = l := by
  intro l
  induction l with
  | nil =>
    intro _
    unfold strictSubAll
    rfl
  | cons c cs ih =>
    intro h
    unfold strictSubAll
    rw [strictMatchAt_none_of_head tag c cs (h c (by simp))]
    rw [ih (fun d hd => h d (by simp [hd]))]

/-- C2: for every text beginning with consecutive strict head emotion
markers `[EMO:e₁][EMO:e₂]…` followed by clean remainder text (no leading
whitespace/trailer punctuation, no further head marker, no residual
strict marker), `strip_head_many` removes all the markers and returns the
emotion of the *last* stripped head marker. -/
theorem strip_head_many_last_emotion_wins (es : List Emotion) (rest : List Char)
    (h1 : rest.dropWhile pySpace = rest) (h2 : rest.dropWhile isPunctTrail = rest)
    (h3 : stripList rest = rest)
    (h4 : headTokenMatch EMO_TAG rest = none) (h5 : headAnyLabelMatch EMO_TAG rest = none)
    (h6 : bracketGuard rest = false) (h7 : strictSubAll EMO_TAG rest = rest) :
    strip_head_many EMO_TAG (joinMarkers es ++ rest) = (rest, es.getLast?) := by
  unfold strip_head_many
  rw [stripHeadLoop_markers es rest h1 h2 h3 h4 h5 h6 none]
  simp only []
  rw [h7, h3, lastOr_none]

/-- Witness for C2 at the concrete input `[EMO:happy][EMO:sad]hello`:
the emotion of the last marker (`sad`, not `happy`) is returned. -/
theorem strip_head_many_last_emotion_wins_witness :
    strip_head_many EMO_TAG (joinMarkers [Emotion.happy, Emotion.sad] ++ "hello".data) =
      ("hello".data, some Emotion.sad) := by
  rw [strip_head_many_last_emotion_wins [Emotion.happy, Emotion.sad] "hello".data
    (by decide) (by decide) (by decide) (by decide) (by decide) (by decide)
    (strictSubAll_eq_self_of_no_lbrack EMO_TAG "hello".data (by decide))]
  rfl

/-- C3 counterexample: the text `" [x"` does not begin with an emotion
marker in any of the three head-pattern shapes, yet `strip_head` does not
return it unchanged — the bracket-guarded third branch strips the leading
whitespace even when no marker matched. -/
theorem strip_head_unmarked_changed_cex :
    headTokenMatch EMO_TAG [' ', '[', 'x'] = none ∧
    headAnyLabelMatch EMO_TAG [' ', '[', 'x'] = none ∧
    markerAnyMatch EMO_TAG [' ', '[', 'x'] = none ∧
    strip_head EMO_TAG [' ', '[', 'x'] ≠ ([' ', '[', 'x'], none) := by
  decide

/-- C3 (amended): for every text that does not begin with an emotion
marker (none of the head patterns match) *and* whose first
non-whitespace character is not one of the opening brackets
`[`, `(`, `【`, `strip_head` returns the input unchanged and no
emotion. -/
theorem strip_head_unmarked_unchanged (tag t : List Char)
    (h1 : headTokenMatch tag t = none) (h2 : headAnyLabelMatch tag t = none)
    (h3 : bracketGuard t = false) :
    strip_head tag t = (t, none) :=
  strip_head_noop tag t h1 h2 h3

/-- Witness for the amended C3 at the concrete input `"hello"`. -/
theorem strip_head_unmarked_unchanged_witness :
    strip_head EMO_TAG "hello".data = ("hello".data, none) :=
  strip_head_unmarked_unchanged EMO_TAG "hello".data (by decide) (by decide) (by decide)

/-- C9: for each canonical emotion `e`, stripping the head marker
`[EMO:e]` from a text `[EMO:e] ++ rest` with clean remainder `rest`
yields `rest` and emotion `e`, and the operation is idempotent: applying
`strip_head` to the result changes nothing and yields no emotion. -/
theorem strip_head_canonical_and_idempotent (e : Emotion) (rest : List Char)
    (h1 : rest.dropWhile pySpace = rest) (h2 : rest.dropWhile isPunctTrail = rest)
    (h3 : stripList rest = rest)
    (h4 : headTokenMatch EMO_TAG rest = none) (h5 : headAnyLabelMatch EMO_TAG rest = none)
    (h6 : bracketGuard rest = false) :
    strip_head EMO_TAG (headMarker e ++ rest) = (rest, some e) ∧
    strip_head EMO_TAG rest = (rest, none) :=
  ⟨strip_head_marker e rest h1 h2 h3, strip_head_noop EMO_TAG rest h4 h5 h6⟩

/-- Witness for C9 at `[EMO:angry]ok`. -/
theorem strip_head_canonical_and_idempotent_witness :
    strip_head EMO_TAG (headMarker Emotion.angry ++ "ok".data) = ("ok".data, some Emotion.angry) ∧
    strip_head EMO_TAG "ok".data = ("ok".data, none) :=
  strip_head_canonical_and_idempotent Emotion.angry "ok".data
    (by decide) (by decide) (by decide) (by decide) (by decide) (by decide)

/-- Rejection reasons produced by `TTSConditionChecker.check_all`
(`core/tts_processor.py`).  The Python code returns formatted strings;
each constructor carries the data interpolated into the string. -/
inductive CheckReason
  | mixedContent
  | textTooLong (len : Nat) (limit : Int)
  | cooldownWait (remaining : ℚ)
  | probabilityFailed (roll : ℚ)
deriving DecidableEq

/-- `TTSCheckResult` dataclass. -/
structure TTSCheckResult where
  passed : Bool
  reason : Option CheckReason
  remaining_cooldown : ℚ
deriving DecidableEq

/-- The fields of the `SessionState` dataclass (`core/session.py`) read
by the operations embedded here; the remaining diagnostic fields are not
consulted by them. -/
structure SessionState where
  last_ts : ℚ
  pending_emotion : Option Emotion
  text_voice_enabled : Option Bool
deriving DecidableEq

/-- `TTSConditionChecker` configuration. -/
structure TTSConditionChecker where
  prob : ℚ
  text_limit : Int
  cooldown : Int
  allow_mixed : Bool
deriving DecidableEq

/-- The effective mixed-output flag: the session override when set, else
the global default (`check_all`, step 1). -/
def effective_mixed (ck : TTSConditionChecker) (st : SessionState) : Bool :=
  match st.text_voice_enabled with
  | some b => b
  | none => ck.allow_mixed

/-- `TTSConditionChecker.check_cooldown`; `now` is the sampled clock. -/
def check_cooldown (ck : TTSConditionChecker) (last_ts now : ℚ) : Bool × ℚ :=
  if ck.cooldown ≤ 0 then (true, 0)
  else if (ck.cooldown : ℚ) ≤ now - last_ts then (true, 0)
  else (false, (ck.cooldown : ℚ) - (now - last_ts))

/-- `TTSConditionChecker.check_probability`; `roll` is the sampled
uniform draw (`random.random()`). -/
def check_probability (ck : TTSConditionChecker) (roll : ℚ) : Bool × ℚ :=
  (decide (roll ≤ ck.prob), roll)

/-- `TTSConditionChecker.check_all`: mixed-content policy, then text
length, then cooldown, then probability; the first failing check
returns its rejection. -/
def check_all (ck : TTSConditionChecker) (text : List Char) (st : SessionState)
    (has_non_plain_elements : Bool) (now roll : ℚ) : TTSCheckResult :=
  let afterMixed : TTSCheckResult :=
    if 0 < ck.text_limit ∧ ck.text_limit < (text.length : Int) then
      ⟨false, some (.textTooLong text.length ck.text_limit), 0⟩
    else
      let cd := check_cooldown ck st.last_ts now
      if cd.1 = false then ⟨false, some (.cooldownWait cd.2), cd.2⟩
      else
        let pr := check_probability ck roll
        if pr.1 = false then ⟨false, some (.probabilityFailed pr.2), 0⟩
        else ⟨true, none, 0⟩
  if has_non_plain_elements then
    if effective_mixed ck st then afterMixed
    else ⟨false, some .mixedContent, 0⟩
  else afterMixed

/-- C1: `check_all` evaluates mixed-content policy, text length,
cooldown and probability strictly in this order with the first failure
short-circuiting; in particular whenever the mixed check does not fire,
a text violating the length limit is rejected with the length reason
regardless of the cooldown and probability state. -/
theorem check_all_order (ck : TTSConditionChecker) (text : List Char) (st : SessionState)
    (hnp : Bool) (now roll : ℚ) :
    (hnp = true → effective_mixed ck st = false →
      check_all ck text st hnp now roll = ⟨false, some .mixedContent, 0⟩) ∧
    ((hnp = false ∨ effective_mixed ck st = true) →
      0 < ck.text_limit → ck.text_limit < (text.length : Int) →
      check_all ck text st hnp now roll =
        ⟨false, some (.textTooLong text.length ck.text_limit), 0⟩) ∧
    ((hnp = false ∨ effective_mixed ck st = true) →
      ¬ (0 < ck.text_limit ∧ ck.text_limit < (text.length : Int)) →
      0 < ck.cooldown → now - st.last_ts < (ck.cooldown : ℚ) →
      check_all ck text st hnp now roll =
        ⟨false, some (.cooldownWait ((ck.cooldown : ℚ) - (now - st.last_ts))),
          (ck.cooldown : ℚ) - (now - st.last_ts)⟩) ∧
    ((hnp = false ∨ effective_mixed ck st = true) →
      ¬ (0 < ck.text_limit ∧ ck.text_limit < (text.length : Int)) →
      (ck.cooldown ≤ 0 ∨ (ck.cooldown : ℚ) ≤ now - st.last_ts) →
      ck.prob < roll →
      check_all ck text st hnp now roll = ⟨false, some (.probabilityFailed roll), 0⟩) ∧
    ((hnp = false ∨ effective_mixed ck st = true) →
      ¬ (0 < ck.text_limit ∧ ck.text_limit < (text.length : Int)) →
      (ck.cooldown ≤ 0 ∨ (ck.cooldown : ℚ) ≤ now - st.last_ts) →
      roll ≤ ck.prob →
      check_all ck text st hnp now roll = ⟨true, none, 0⟩) := by
  refine ⟨?_, ?_, ?_, ?_, ?_⟩
  · intro h1 h2
    simp [check_all, h1, h2]
  · intro hmx hl1 hl2
    rcases hmx with hmx | hmx <;>
      simp [check_all, hmx, hl1, hl2]
  · intro hmx hlen hcd1 hcd2
    have hcd : check_cooldown ck st.last_ts now =
        (false, (ck.cooldown : ℚ) - (now - st.last_ts)) := by
      rw [check_cooldown, if_neg (by omega), if_neg (by linarith)]
    rcases hmx with hmx | hmx <;>
      simp [check_all, hmx, hlen, hcd]
  · intro hmx hlen hcd hpr
    have hcdok : check_cooldown ck st.last_ts now = (true, 0) := by
      unfold check_cooldown
      split_ifs with hc1 hc2
      · rfl
      · rfl
      · rcases hcd with hcd | hcd
        · exact absurd hcd hc1
        · exact absurd hcd hc2
    have hprf : check_probability ck roll = (false, roll) := by
      simp [check_probability]
      linarith
    rcases hmx with hmx | hmx <;>
      simp [check_all, hmx, hlen, hcdok, hprf]
  · intro hmx hlen hcd hpr
    have hcdok : check_cooldown ck st.last_ts now = (true, 0) := by
      unfold check_cooldown
      split_ifs with hc1 hc2
      · rfl
      · rfl
      · rcases hcd with hcd | hcd
        · exact absurd hcd hc1
        · exact absurd hcd hc2
    have hprt : check_probability ck roll = (true, roll) := by
      simp [check_probability, hpr]
    rcases hmx with hmx | hmx <;>
      simp [check_all, hmx, hlen, hcdok, hprt]

/-- Witness for C1: with limit 5, a 10-character text, and an active
cooldown (3 s elapsed of 10 s), the rejection carries the length
reason, not the cooldown reason. -/
theorem check_all_order_witness :
    check_all ⟨1, 5, 10, false⟩ "0123456789".data ⟨0, none, none⟩ false 3 0 =
      ⟨false, some (.textTooLong 10 5), 0⟩ :=
  (check_all_order ⟨1, 5, 10, false⟩ "0123456789".data ⟨0, none, none⟩ false 3 0).2.1
    (Or.inl rfl) (by norm_num) (by norm_num)

/-- `EMOTION_PREFERENCE_MAP.get` from `core/constants.py`:
sad→angry, angry→angry, happy→happy, neutral→happy. -/
def EMOTION_PREFERENCE_MAP (e : String) : Option String :=
  if e = "sad" then some "angry"
  else if e = "angry" then some "angry"
  else if e = "happy" then some "happy"
  else if e = "neutral" then some "happy"
  else none

/-- `vm.get(k)` followed by Python truthiness (`if v:`): the voice map
entry for `k` when present and non-empty.  The voice map is modelled as
an association list in dict insertion order. -/
def vm_get_truthy (vm : List (String × String)) (k : String) : Option String :=
  match vm.find? (fun p => p.1 == k) with
  | some p => if p.2 = "" then none else some p.2
  | none => none

/-- The preference loop of `pick_voice_for_emotion`:
`for key in [EMOTION_PREFERENCE_MAP.get(emotion), "happy", "angry"]:
if key and vm.get(key): return key, vm[key]`. -/
def chain_lookup (vm : List (String × String)) : List (Option String) → Option (String × String)
  | [] => none
  | none :: rest => chain_lookup vm rest
  | some k :: rest =>
    match vm_get_truthy vm k with
    | some v => some (k, v)
    | none => chain_lookup vm rest

/-- `TTSProcessor.pick_voice_for_emotion`: exact emotion key, else
`neutral`, else the preference chain, else the first non-empty entry,
else nothing. -/
def pick_voice_for_emotion (vm : List (String × String)) (emotion : String) :
    Option (String × String) :=
  match vm_get_truthy vm emotion with
  | some v => some (emotion, v)
  | none =>
    match vm_get_truthy vm "neutral" with
    | some v => some ("neutral", v)
    | none =>
      match chain_lookup vm [EMOTION_PREFERENCE_MAP emotion, some "happy", some "angry"] with
      | some kv => some kv
      | none => vm.find? (fun p => !(p.2 == ""))


theorem chain_lookup_nil_vm : ∀ l, chain_lookup [] l = none := by
  intro l
  induction l with
  | nil => rfl
  | cons o rest ih => cases o <;> simp [chain_lookup, vm_get_truthy, ih]

/-- C7: `pick_voice_for_emotion` follows the lookup order: exact key,
else `neutral`, else the fixed preference fallback chain, else the
first non-empty voice-map entry, else nothing; in particular a map with
only a `happy` entry serves emotion `sad` with that entry. -/
theorem pick_voice_fallback_order (vm : List (String × String)) (e : String) :
    (∀ v, vm_get_truthy vm e = some v →
      pick_voice_for_emotion vm e = some (e, v)) ∧
    (∀ v, vm_get_truthy vm e = none → vm_get_truthy vm "neutral" = some v →
      pick_voice_for_emotion vm e = some ("neutral", v)) ∧
    (∀ kv, vm_get_truthy vm e = none → vm_get_truthy vm "neutral" = none →
      chain_lookup vm [EMOTION_PREFERENCE_MAP e, some "happy", some "angry"] = some kv →
      pick_voice_for_emotion vm e = some kv) ∧
    (vm_get_truthy vm e = none → vm_get_truthy vm "neutral" = none →
      chain_lookup vm [EMOTION_PREFERENCE_MAP e, some "happy", some "angry"] = none →
      pick_voice_for_emotion vm e = vm.find? (fun p => !(p.2 == ""))) ∧
    (∀ v, ¬ v = "" →
      pick_voice_for_emotion [("happy", v)] "sad" = some ("happy", v)) ∧
    (pick_voice_for_emotion [] e = none) := by
  refine ⟨?_, ?_, ?_, ?_, ?_, ?_⟩
  · intro v h
    simp [pick_voice_for_emotion, h]
  · intro v h1 h2
    simp [pick_voice_for_emotion, h1, h2]
  · intro kv h1 h2 h3
    simp [pick_voice_for_emotion, h1, h2, h3]
  · intro h1 h2 h3
    simp [pick_voice_for_emotion, h1, h2, h3]
  · intro v hv
    simp [pick_voice_for_emotion, vm_get_truthy, chain_lookup,
      EMOTION_PREFERENCE_MAP, List.find?, hv]
  · simp [pick_voice_for_emotion, vm_get_truthy, chain_lookup_nil_vm, List.find?]

/-- Witness for C7: a voice map holding only a non-empty `happy` entry
serves emotion `sad` with the `happy` entry. -/
theorem pick_voice_fallback_order_witness :
    pick_voice_for_emotion [("happy", "voice-id-1")] "sad" = some ("happy", "voice-id-1") :=
  (pick_voice_fallback_order [("happy", "voice-id-1")] "sad").2.2.2.2.1 "voice-id-1"
    (by decide)

/-- Substring search (`pat in s` / `re.search` of a literal): some
suffix of `s` starts with `pat`. -/
def searchSub (pat s : List Char) : Bool :=
  s.tails.any (fun t => pat.isPrefixOf t)

/-- `URL_RE = https?://|www\.` searched anywhere in the text. -/
def url_search (s : List Char) : Bool :=
  searchSub "http://".data s || searchSub "https://".data s || searchSub "www.".data s

/-- The fence info-string class `[a-zA-Z0-9_+-]`. -/
def isLangChar (c : Char) : Bool :=
  isAsciiLetter c || ('0' ≤ c && c ≤ '9') || c = '_' || c = '+' || c = '-'

/-- The backtick character (U+0060). -/
def backquote : Char := Char.ofNat 96

/-- Exact literal match at the head of `s`. -/
def matchLit : List Char → List Char → Option (List Char)
  | [], s => some s
  | _ :: _, [] => none
  | l :: ls, c :: cs => if c = l then matchLit ls cs else none

/-- A match of `CODE_BLOCK_RE` (```` ```[a-zA-Z0-9_+-]*\n.*?\n``` ````,
DOTALL) starting at the head of `l`. -/
def code_block_at (l : List Char) : Bool :=
  match matchLit "```".data l with
  | none => false
  | some r =>
    match r.dropWhile isLangChar with
    | d :: r3 => d = '\n' && searchSub ("\n```".data) r3
    | [] => false

/-- `CODE_BLOCK_RE.search`: a fenced code block anywhere in the text. -/
def code_block_search (s : List Char) : Bool :=
  s.tails.any code_block_at

/-- The "complex inline code" test of `is_informational`: spaces,
newlines, more than one `.` or `/`, or length over 20. -/
def inline_code_complex (content : List Char) : Bool :=
  content.contains ' ' || content.contains '\n' ||
  1 < content.countP (fun c => c = '.') || 1 < content.countP (fun c => c = '/') ||
  20 < content.length

/-- Scan for `INLINE_CODE_RE` matches (`` `([^`\n]+)` ``) whose content
is complex, following `re.finditer`: non-overlapping matches, scanning
resumes after a match's closing backtick, otherwise one character on. -/
def has_inline_code : List Char → Bool
  | [] => false
  | c :: rest =>
    if c = backquote then
      let content := rest.takeWhile (fun d => !(d = backquote) && !(d = '\n'))
      match ha : rest.drop content.length with
      | d :: rest2 =>
        if d = backquote && !content.isEmpty then
          if inline_code_complex content then true else has_inline_code rest2
        else has_inline_code rest
      | [] => has_inline_code rest
    else has_inline_code rest
termination_by l => l.length
decreasing_by
  · have hlen := congrArg List.length ha
    rw [List.length_drop] at hlen
    simp only [List.length_cons] at hlen ⊢
    omega
  · exact Nat.lt_succ_self s1.length
  · exact Nat.lt_succ_self s1.length
  · exact Nat.lt_succ_self s1.length

/-- `is_informational` from `emotion/infer.py`: URLs, fenced code
blocks, or complex inline code make a text informational. -/
def is_informational (text : List Char) : Bool :=
  url_search text || code_block_search text || has_inline_code text

/-- `DEFAULT_KEYWORDS` (built from `DEFAULT_EMOTION_KEYWORDS_LIST`). -/
def DEFAULT_KEYWORDS : List (String × List (List Char)) :=
  [ ("happy", ["开心", "高兴", "喜欢", "太棒了", "哈哈", "lol", ":)", "😀"].map String.data),
    ("sad", ["难过", "伤心", "失望", "糟糕", "无语", "唉", "sad", ":(", "😢"].map String.data),
    ("angry", ["气死", "愤怒", "生气", "nm", "tmd", "淦", "怒", "怒了", "😡"].map String.data) ]

/-- Keyword score for one emotion: one point per (distinct) keyword of
that emotion occurring in the lowercased text.  Keyword collections are
Python sets, hence the `dedup`. -/
def kw_score (kw : List (String × List (List Char))) (emo : String) (tLower : List Char) : ℚ :=
  ((kw.filter (fun p => p.1 == emo)).map
    (fun p => ((p.2.dedup.countP (fun w => searchSub (toLowerList w) tLower) : Nat) : ℚ))).sum

/-- Python `str.isalpha` approximated over the alphabets appearing in
this code base: ASCII letters and CJK unified ideographs. -/
def pyIsAlpha (c : Char) : Bool :=
  isAsciiLetter c || (Char.ofNat 0x4e00 ≤ c && c ≤ Char.ofNat 0x9fff)

/-- `classify` from `emotion/infer.py`: informational texts are
`neutral`; otherwise keyword counts plus `!`/all-caps boosts and weakly
weighted context pick the best of happy/sad/angry, falling back to
`neutral` at or below the 0.5 threshold. -/
def classify (text : List Char) (context : Option (List (List Char)))
    (keywords : Option (List (String × List (List Char)))) : String :=
  if is_informational text then "neutral"
  else
    let t := toLowerList text
    let kw_map := match keywords with | some k => k | none => DEFAULT_KEYWORDS
    let bang : ℚ := if text.contains '!' then 1/2 else 0
    let caps : ℚ :=
      if !text.isEmpty && !(stripList text).isEmpty &&
          (text.map Char.toUpper == text) && text.any pyIsAlpha then 1 else 0
    let ctxAdd : String → ℚ := fun emo =>
      match context with
      | none => 0
      | some l =>
        if l.isEmpty then 0
        else
          let ctxLower := toLowerList (List.intercalate ['\n'] (l.drop (l.length - 3)))
          ((kw_map.filter (fun p => p.1 == emo)).map
            (fun p => ((p.2.dedup.countP
              (fun w => searchSub (toLowerList w) ctxLower) : Nat) : ℚ) * (1/5))).sum
    let sh := kw_score kw_map "happy" t + ctxAdd "happy"
    let ss := kw_score kw_map "sad" t + ctxAdd "sad"
    let sa := kw_score kw_map "angry" t + bang + caps + ctxAdd "angry"
    let label := if sh ≥ ss ∧ sh ≥ sa then "happy" else if ss ≥ sa then "sad" else "angry"
    let best := if sh ≥ ss ∧ sh ≥ sa then sh else if ss ≥ sa then ss else sa
    if best ≤ 1/2 then "neutral" else label

/-- C8: any text containing a URL or a fenced code block classifies as
`neutral`, regardless of embedded keywords, of the keyword configuration
and of the context supplied. -/
theorem classify_informational_neutral (text : List Char)
    (context : Option (List (List Char)))
    (keywords : Option (List (String × List (List Char))))
    (h : url_search text = true ∨ code_block_search text = true) :
    classify text context keywords = "neutral" := by
  have hinf : is_informational text = true := by
    rcases h with h | h <;> simp [is_informational, h]
  simp [classify, hinf]

/-- Witness for C8: a URL-bearing text full of angry keywords, with an
angry context and the default keyword configuration, is `neutral`. -/
theorem classify_informational_neutral_witness :
    classify "气死 furious!!! see https://example.com".data
      (some ["愤怒 生气".data]) none = "neutral" :=
  classify_informational_neutral _ _ _ (Or.inl (by decide))

/-- Message-chain segments: `Plain` text, `Record` audio, or any other
component (carrying an opaque identifier), mirroring the duck-typed
chain components handled by `TTSResultBuilder`. -/
inductive Seg
  | plain (text : List Char)
  | record (file : List Char)
  | other (id : Nat)
deriving DecidableEq

/-- Is the segment a `Plain` text component? -/
def isPlainSeg : Seg → Bool
  | .plain _ => true
  | _ => false

/-- Is the segment a `Record` audio component? -/
def isRecordSeg : Seg → Bool
  | .record _ => true
  | _ => false

/-- Is the segment neither `Plain` nor `Record`? -/
def isOtherSeg : Seg → Bool
  | .other _ => true
  | _ => false

/-- `TTSResultBuilder.build`: optional text first (only when text+voice
is enabled and the send text is non-blank), then the audio record, then
every original component that is neither `Plain` nor `Record`, in
order. -/
def build (original_chain : List Seg) (audio_path : List Char) (send_text : List Char)
    (text_voice_enabled : Bool) : List Seg :=
  (if text_voice_enabled ∧ stripList send_text ≠ [] then [Seg.plain send_text] else [])
  ++ [Seg.record audio_path]
  ++ original_chain.filter (fun comp => !(isPlainSeg comp || isRecordSeg comp))

theorem filter_nonPR_record (chain : List Seg) :
    (chain.filter (fun comp => !(isPlainSeg comp || isRecordSeg comp))).filter isRecordSeg
      = [] := by
  induction chain with
  | nil => rfl
  | cons s rest ih =>
    cases s with
    | plain t =>
      rw [List.filter_cons_of_neg (by simp [isPlainSeg])]
      exact ih
    | record f =>
      rw [List.filter_cons_of_neg (by simp [isRecordSeg])]
      exact ih
    | other i =>
      rw [List.filter_cons_of_pos (by simp [isPlainSeg, isRecordSeg]),
        List.filter_cons_of_neg (by simp [isRecordSeg])]
      exact ih

theorem filter_nonPR_plain (chain : List Seg) :
    (chain.filter (fun comp => !(isPlainSeg comp || isRecordSeg comp))).filter isPlainSeg
      = [] := by
  induction chain with
  | nil => rfl
  | cons s rest ih =>
    cases s with
    | plain t =>
      rw [List.filter_cons_of_neg (by simp [isPlainSeg])]
      exact ih
    | record f =>
      rw [List.filter_cons_of_neg (by simp [isRecordSeg])]
      exact ih
    | other i =>
      rw [List.filter_cons_of_pos (by simp [isPlainSeg, isRecordSeg]),
        List.filter_cons_of_neg (by simp [isPlainSeg])]
      exact ih

theorem filter_nonPR_other (chain : List Seg) :
    (chain.filter (fun comp => !(isPlainSeg comp || isRecordSeg comp))).filter isOtherSeg
      = chain.filter isOtherSeg := by
  induction chain with
  | nil => rfl
  | cons s rest ih =>
    cases s with
    | plain t =>
      rw [List.filter_cons_of_neg (by simp [isPlainSeg]),
        List.filter_cons_of_neg (show ¬ isOtherSeg (Seg.plain t) = true by simp [isOtherSeg])]
      exact ih
    | record f =>
      rw [List.filter_cons_of_neg (by simp [isRecordSeg]),
        List.filter_cons_of_neg (show ¬ isOtherSeg (Seg.record f) = true by simp [isOtherSeg])]
      exact ih
    | other i =>
      rw [List.filter_cons_of_pos (by simp [isPlainSeg, isRecordSeg]),
        List.filter_cons_of_pos (show isOtherSeg (Seg.other i) = true by simp [isOtherSeg]),
        List.filter_cons_of_pos (show isOtherSeg (Seg.other i) = true by simp [isOtherSeg])]
      rw [ih]

/-- C10: for every original chain, the chain built by
`TTSResultBuilder.build` contains exactly one `Record` segment, which
references the given audio path; it contains a `Plain` text segment —
namely the send text — exactly when text+voice is enabled and the send
text is non-blank; and it preserves every component of the original
chain that is neither `Plain` nor `Record`, in their original relative
order. -/
theorem build_chain_shape (original_chain : List Seg) (audio_path send_text : List Char)
    (text_voice_enabled : Bool) :
    (build original_chain audio_path send_text text_voice_enabled).filter isRecordSeg
        = [Seg.record audio_path] ∧
    (build original_chain audio_path send_text text_voice_enabled).filter isPlainSeg
        = (if text_voice_enabled ∧ stripList send_text ≠ [] then [Seg.plain send_text]
           else []) ∧
    (build original_chain audio_path send_text text_voice_enabled).filter isOtherSeg
        = original_chain.filter isOtherSeg := by
  unfold build
  refine ⟨?_, ?_, ?_⟩ <;>
    split_ifs <;>
      simp only [List.filter_append, List.filter_cons, List.filter_nil,
        filter_nonPR_record, filter_nonPR_plain, filter_nonPR_other,
        show isRecordSeg (Seg.plain send_text) = false from rfl,
        show isRecordSeg (Seg.record audio_path) = true from rfl,
        show isPlainSeg (Seg.plain send_text) = true from rfl,
        show isPlainSeg (Seg.record audio_path) = false from rfl,
        show isOtherSeg (Seg.plain send_text) = false from rfl,
        show isOtherSeg (Seg.record audio_path) = false from rfl] <;>
      simp

/-- Constructor configuration of `SiliconFlowTTS`
(`tts/provider_siliconflow.py`). -/
structure TTSCfg where
  api_url : String
  api_key : String
  model : String
  format : String
  speed : ℚ
  max_retries : Nat
  timeout : Nat
  gain : ℚ
  sample_rate : Option Nat
deriving DecidableEq

/-- The tuple hashed into the cache filename by `synth`: text, voice,
model, effective speed, format, gain, sample rate.  The truncated
sha256 hex digest is modelled by the tuple itself (content addressing,
idealised as collision-free), so a path is identified with its key. -/
structure CacheKey where
  t : String
  v : String
  m : String
  s : ℚ
  f : String
  g : ℚ
  sr : Option Nat
deriving DecidableEq

/-- The on-disk cache directory: files by cache key, with byte sizes. -/
abbrev FS := List (CacheKey × Nat)

/-- `out_path.exists()` + `stat().st_size`: the size of the file at a
key, when present. -/
def fsLookup (fs : FS) (k : CacheKey) : Option Nat :=
  (fs.find? (fun p => decide (p.1 = k))).map (·.2)

/-- `open(out_path, "wb").write(content)`: (over)write the file. -/
def fsWrite (fs : FS) (k : CacheKey) (sz : Nat) : FS :=
  (k, sz) :: fs.filter (fun p => !decide (p.1 = k))

/-- `out_path.unlink()`: remove the file. -/
def fsErase (fs : FS) (k : CacheKey) : FS :=
  fs.filter (fun p => !decide (p.1 = k))

/-- One HTTP response as observed by `synth`'s POST. -/
structure HttpResp where
  status : Nat
  contentType : String
  bodySize : Nat
deriving DecidableEq

/-- One network interaction outcome: a response, or a network-level
exception. -/
inductive NetEvent
  | resp (r : HttpResp)
  | exn
deriving DecidableEq

/-- `SiliconFlowTTS._is_audio_response`: the content type starts with
`audio/` or `application/octet-stream` (prefix test over the character
list). -/
def is_audio_response (ct : String) : Bool :=
  List.isPrefixOf "audio/".data ct.data ||
    List.isPrefixOf "application/octet-stream".data ct.data

/-- `AUDIO_MIN_VALID_SIZE` from `core/constants.py`. -/
def AUDIO_MIN_VALID_SIZE : Nat := 100

/-- `validate_audio_file` (`utils/audio.py`) over the modelled file
system: the file must exist, be non-empty and at least
`AUDIO_MIN_VALID_SIZE` bytes.  The extension and magic-byte checks only
log warnings and never fail validation. -/
def validate_audio_file (fs : FS) (k : CacheKey) : Bool :=
  match fsLookup fs k with
  | none => false
  | some sz => if sz = 0 then false else if sz < AUDIO_MIN_VALID_SIZE then false else true

/-- Result of a `synth` call: the returned path (identified by its
cache key), the file system afterwards, the number of network requests
issued, and the backoff delays slept (in order). -/
structure SynthOut where
  result : Option CacheKey
  fs : FS
  calls : Nat
  sleeps : List ℚ
deriving DecidableEq

/-- The retry loop of `synth` (`for attempt in range(1, max_retries+2)`),
driven by an oracle list of network outcomes consumed one per request.
On a 2xx audio response the body is written and validated; 429/5xx
responses and network exceptions are retried (after sleeping `backoff`,
which then doubles, capped at 8) while `attempt ≤ max_retries`; anything
else breaks out.  An exhausted oracle ends the loop like a final failed
request. -/
def synthAttempts (cfg : TTSCfg) (key : CacheKey) (fs : FS) :
    List NetEvent → Nat → ℚ → SynthOut
  | [], _, _ => ⟨none, fs, 1, []⟩
  | ev :: net', attempt, backoff =>
    match ev with
    | .resp r =>
      if 200 ≤ r.status ∧ r.status < 300 then
        if !(is_audio_response r.contentType) then ⟨none, fs, 1, []⟩
        else
          let fs' := fsWrite fs key r.bodySize
          if !(validate_audio_file fs' key) then ⟨none, fs', 1, []⟩
          else ⟨some key, fs', 1, []⟩
      else
        if (r.status = 429 ∨ (500 ≤ r.status ∧ r.status < 600)) ∧ attempt ≤ cfg.max_retries then
          let o := synthAttempts cfg key fs net' (attempt + 1) (min (backoff * 2) 8)
          ⟨o.result, o.fs, o.calls + 1, backoff :: o.sleeps⟩
        else ⟨none, fs, 1, []⟩
    | .exn =>
      if attempt ≤ cfg.max_retries then
        let o := synthAttempts cfg key fs net' (attempt + 1) (min (backoff * 2) 8)
        ⟨o.result, o.fs, o.calls + 1, backoff :: o.sleeps⟩
      else ⟨none, fs, 1, []⟩

/-- The cache key computed by `synth` for a request (effective speed:
the argument if given, else the configured default). -/
def synthKey (cfg : TTSCfg) (text voice : String) (speed? : Option ℚ) : CacheKey :=
  ⟨text, voice, cfg.model,
    (match speed? with | some s => s | none => cfg.speed),
    cfg.format, cfg.gain, cfg.sample_rate⟩

/-- `out_path.exists() and out_path.stat().st_size > 0`. -/
def cacheHit (fs : FS) (key : CacheKey) : Bool :=
  match fsLookup fs key with
  | some sz => decide (0 < sz)
  | none => false

/-- `SiliconFlowTTS.synth`: missing credentials fail immediately; a
non-empty cached file is returned with no network request; otherwise
the retry loop runs, and on failure a zero-byte leftover file is
deleted before returning `None`. -/
def synth (cfg : TTSCfg) (text voice : String) (speed? : Option ℚ) (fs : FS)
    (net : List NetEvent) : SynthOut :=
  if cfg.api_url = "" ∨ cfg.api_key = "" then ⟨none, fs, 0, []⟩
  else
    let key := synthKey cfg text voice speed?
    if cacheHit fs key then ⟨some key, fs, 0, []⟩
    else
      let a := synthAttempts cfg key fs net 1 1
      match a.result with
      | some _ => a
      | none =>
        ⟨none, if fsLookup a.fs key = some 0 then fsErase a.fs key else a.fs,
          a.calls, a.sleeps⟩

/-- The backoff delays slept by `n` retries starting from delay `b`:
doubling, capped at 8. -/
def capSeq : ℚ → Nat → List ℚ
  | _, 0 => []
  | b, n + 1 => b :: capSeq (min (b * 2) 8) n

/-- Is a network outcome one that `synth` retries (a network exception,
or an HTTP 429/5xx response)? -/
def retryable_event : NetEvent → Bool
  | .exn => true
  | .resp r =>
    !(decide (200 ≤ r.status ∧ r.status < 300)) &&
      decide (r.status = 429 ∨ (500 ≤ r.status ∧ r.status < 600))

theorem validate_pos (fs : FS) (k : CacheKey) (h : validate_audio_file fs k = true) :
    ∃ sz, fsLookup fs k = some sz ∧ 0 < sz := by
  unfold validate_audio_file at h
  split at h
  case h_1 => exact absurd h (by simp)
  case h_2 sz hsz =>
    refine ⟨sz, hsz, ?_⟩
    split at h
    · exact absurd h (by simp)
    · omega

theorem synthAttempts_success (cfg : TTSCfg) (key : CacheKey) (fs : FS) :
    ∀ (net : List NetEvent) (attempt : Nat) (backoff : ℚ),
      (synthAttempts cfg key fs net attempt backoff).result.isSome →
      (synthAttempts cfg key fs net attempt backoff).result = some key ∧
      validate_audio_file (synthAttempts cfg key fs net attempt backoff).fs key = true := by
  intro net
  induction net with
  | nil =>
    intro attempt backoff h
    simp [synthAttempts] at h
  | cons ev net' ih =>
    intro attempt backoff h
    cases ev with
    | resp r =>
      simp only [synthAttempts] at h ⊢
      split at h
      case isTrue h2xx =>
        split at h
        case isTrue => simp at h
        case isFalse haud =>
          split at h
          case isTrue => simp at h
          case isFalse hval =>
            simp only [Bool.not_eq_true'] at hval
            rw [if_pos h2xx, if_neg (by simpa using haud), if_neg (by simp [hval])]
            exact ⟨rfl, by simpa using hval⟩
      case isFalse h2xx =>
        split at h
        case isTrue hretry =>
          rw [if_neg h2xx, if_pos hretry]
          simp only at h
          obtain ⟨h1, h2⟩ := ih (attempt + 1) (min (backoff * 2) 8) h
          exact ⟨h1, h2⟩
        case isFalse => simp at h
    | exn =>
      simp only [synthAttempts] at h ⊢
      split at h
      case isTrue hretry =>
        rw [if_pos hretry]
        simp only at h
        obtain ⟨h1, h2⟩ := ih (attempt + 1) (min (backoff * 2) 8) h
        exact ⟨h1, h2⟩
      case isFalse => simp at h

theorem synthAttempts_retryable (cfg : TTSCfg) (key : CacheKey) (fs : FS) :
    ∀ (net : List NetEvent) (attempt : Nat) (backoff : ℚ),
      (∀ ev ∈ net, retryable_event ev = true) →
      cfg.max_retries + 1 - attempt < net.length →
      attempt ≤ cfg.max_retries + 1 →
      synthAttempts cfg key fs net attempt backoff =
        ⟨none, fs, cfg.max_retries + 1 - attempt + 1,
          capSeq backoff (cfg.max_retries + 1 - attempt)⟩ := by
  intro net
  induction net with
  | nil =>
    intro attempt backoff _ hlen _
    simp at hlen
  | cons ev net' ih =>
    intro attempt backoff hretr hlen hatt
    have hev := hretr ev (by simp)
    rcases Nat.lt_or_ge attempt (cfg.max_retries + 1) with hlt | hge
    · -- attempt ≤ max_retries: this event is retried
      have hle : attempt ≤ cfg.max_retries := by omega
      have hmeas : cfg.max_retries + 1 - attempt = (cfg.max_retries - attempt) + 1 := by
        omega
      have hrec := ih (attempt + 1) (min (backoff * 2) 8)
        (fun e he => hretr e (by simp [he]))
        (by simp only [List.length_cons] at hlen; omega)
        (by omega)
      have hmeas2 : cfg.max_retries + 1 - (attempt + 1) = cfg.max_retries - attempt := by
        omega
      cases ev with
      | resp r =>
        simp only [retryable_event, Bool.and_eq_true, Bool.not_eq_true',
          decide_eq_false_iff_not, decide_eq_true_eq] at hev
        simp only [synthAttempts]
        rw [if_neg hev.1, if_pos ⟨hev.2, hle⟩, hrec, hmeas2, hmeas]
        rfl
      | exn =>
        simp only [synthAttempts]
        rw [if_pos hle, hrec, hmeas2, hmeas]
        rfl
    · -- attempt = max_retries + 1: final attempt, no further retry
      have heq : attempt = cfg.max_retries + 1 := by omega
      have hnle : ¬ attempt ≤ cfg.max_retries := by omega
      have hz : cfg.max_retries + 1 - attempt = 0 := by omega
      cases ev with
      | resp r =>
        simp only [retryable_event, Bool.and_eq_true, Bool.not_eq_true',
          decide_eq_false_iff_not, decide_eq_true_eq] at hev
        simp only [synthAttempts]
        rw [if_neg hev.1, if_neg (by intro hc; exact hnle hc.2), hz]
        rfl
      | exn =>
        simp only [synthAttempts]
        rw [if_neg hnle, hz]
        rfl

theorem fs_filter_id (fs : FS) (k : CacheKey) (h : fsLookup fs k = none) :
    fs.filter (fun p => !decide (p.1 = k)) = fs := by
  induction fs with
  | nil => rfl
  | cons p rest ih =>
    by_cases hp : p.1 = k
    · exfalso
      simp [fsLookup, List.find?_cons, hp] at h
    · have hrest : fsLookup rest k = none := by
        simpa [fsLookup, List.find?_cons, hp] using h
      simp [List.filter_cons, hp, ih hrest]

theorem fsErase_fsWrite (fs : FS) (k : CacheKey) (sz : Nat) (h : fsLookup fs k = none) :
    fsErase (fsWrite fs k sz) k = fs := by
  unfold fsErase fsWrite
  rw [List.filter_cons_of_neg (by simp)]
  rw [List.filter_filter]
  have hpred : (fun (p : CacheKey × Nat) => !decide (p.1 = k) && !decide (p.1 = k)) =
      (fun (p : CacheKey × Nat) => !decide (p.1 = k)) := by
    funext p
    exact Bool.and_self _
  rw [hpred]
  exact fs_filter_id fs k h

theorem fsLookup_fsWrite (fs : FS) (k : CacheKey) (sz : Nat) :
    fsLookup (fsWrite fs k sz) k = some sz := by
  simp [fsLookup, fsWrite, List.find?_cons]

theorem cacheHit_of_validate (fs : FS) (k : CacheKey)
    (h : validate_audio_file fs k = true) : cacheHit fs k = true := by
  obtain ⟨sz, hl, hpos⟩ := validate_pos fs k h
  simp [cacheHit, hl, hpos]

/-- C4: `synth` computes its cache key from (text, voice, model, speed,
format, gain, sample rate); whenever a non-empty file already exists at
that key, it returns that file immediately with zero network requests;
consequently a second call with identical parameters after a successful
first call issues no network request, and a clean first success issues
exactly one. -/
theorem synth_content_cache (cfg : TTSCfg) (text voice : String) (sp : Option ℚ)
    (fs : FS) (net net2 : List NetEvent) :
    (∀ sz, ¬(cfg.api_url = "" ∨ cfg.api_key = "") →
      fsLookup fs (synthKey cfg text voice sp) = some sz → 0 < sz →
      synth cfg text voice sp fs net = ⟨some (synthKey cfg text voice sp), fs, 0, []⟩) ∧
    (∀ k, (synth cfg text voice sp fs net).result = some k →
      synth cfg text voice sp (synth cfg text voice sp fs net).fs net2 =
        ⟨some k, (synth cfg text voice sp fs net).fs, 0, []⟩) ∧
    (∀ r rest, ¬(cfg.api_url = "" ∨ cfg.api_key = "") →
      fsLookup fs (synthKey cfg text voice sp) = none →
      200 ≤ r.status → r.status < 300 → is_audio_response r.contentType = true →
      AUDIO_MIN_VALID_SIZE ≤ r.bodySize →
      (synth cfg text voice sp fs (.resp r :: rest)).calls = 1) := by
  refine ⟨?_, ?_, ?_⟩
  · intro sz hapi hl hpos
    simp [synth, cacheHit, hapi, hl, hpos]
  · intro k hk
    by_cases hapi : cfg.api_url = "" ∨ cfg.api_key = ""
    · exfalso
      simp [synth, hapi] at hk
    · by_cases hhit : cacheHit fs (synthKey cfg text voice sp) = true
      · have hsynth : synth cfg text voice sp fs net =
            ⟨some (synthKey cfg text voice sp), fs, 0, []⟩ := by
          simp [synth, hapi, hhit]
        rw [hsynth] at hk ⊢
        simp only [Option.some.injEq] at hk
        subst hk
        simp [synth, hapi, hhit]
      · cases hres : (synthAttempts cfg (synthKey cfg text voice sp) fs net 1 1).result with
        | none =>
          exfalso
          simp [synth, hapi, hhit, hres] at hk
        | some k' =>
          obtain ⟨h1, h2⟩ := synthAttempts_success cfg (synthKey cfg text voice sp) fs
            net 1 1 (by simp [hres])
          have hsynth : synth cfg text voice sp fs net =
              synthAttempts cfg (synthKey cfg text voice sp) fs net 1 1 := by
            simp [synth, hapi, hhit, hres]
          rw [hsynth] at hk ⊢
          rw [h1] at hk
          simp only [Option.some.injEq] at hk
          subst hk
          simp [synth, hapi, cacheHit_of_validate _ _ h2, h1]
  · intro r rest hapi hmiss h2a h2b haud hsz
    have hval : validate_audio_file
        (fsWrite fs (synthKey cfg text voice sp) r.bodySize) (synthKey cfg text voice sp)
          = true := by
      unfold validate_audio_file
      rw [fsLookup_fsWrite]
      have hz : ¬ r.bodySize = 0 := by
        unfold AUDIO_MIN_VALID_SIZE at hsz
        omega
      have hlt : ¬ r.bodySize < AUDIO_MIN_VALID_SIZE := by omega
      simp [hz, hlt]
    have hatt : synthAttempts cfg (synthKey cfg text voice sp) fs (.resp r :: rest) 1 1 =
        ⟨some (synthKey cfg text voice sp),
          fsWrite fs (synthKey cfg text voice sp) r.bodySize, 1, []⟩ := by
      simp only [synthAttempts]
      rw [if_pos ⟨h2a, h2b⟩, if_neg (by simp [haud]), if_neg (by simp [hval])]
    simp [synth, hapi, cacheHit, hmiss, hatt]

/-- Test fixture: a provider configuration with credentials, model
`m1`, `mp3` output, default speed 1, two retries, gain 5. -/
def cfgW : TTSCfg := ⟨"https://api.example/v1", "sk-1", "m1", "mp3", 1, 2, 30, 5, none⟩

/-- Test fixture: the cache key of a request for text `"hi"`, voice
`"v"` under `cfgW`. -/
def keyW : CacheKey := synthKey cfgW "hi" "v" none

/-- Witness for C4: with a 4000-byte cached file present, `synth`
returns it with zero network calls. -/
theorem synth_content_cache_witness :
    synth cfgW "hi" "v" none [(keyW, 4000)] [] = ⟨some keyW, [(keyW, 4000)], 0, []⟩ :=
  (synth_content_cache cfgW "hi" "v" none [(keyW, 4000)] [] []).1 4000
    (by decide) (by decide) (by decide)

/-- C5 counterexample: a 50-byte download fails validation (minimum is
100 bytes) and `synth` returns `None`, but the invalid file is *not*
discarded — it stays on disk at the cache key — and the next call with
the same parameters is served that invalid file as a cache hit with no
network request. -/
theorem synth_validation_cache_cex :
    (synth cfgW "hi" "v" none [] [.resp ⟨200, "audio/mpeg", 50⟩]).result = none ∧
    fsLookup (synth cfgW "hi" "v" none [] [.resp ⟨200, "audio/mpeg", 50⟩]).fs keyW
      = some 50 ∧
    synth cfgW "hi" "v" none
        (synth cfgW "hi" "v" none [] [.resp ⟨200, "audio/mpeg", 50⟩]).fs [] =
      ⟨some keyW, (synth cfgW "hi" "v" none [] [.resp ⟨200, "audio/mpeg", 50⟩]).fs,
        0, []⟩ := by
  decide

/-- C5 (amended): when the downloaded file fails validation `synth`
returns `None`; but only a zero-byte download is deleted from disk
before returning — a non-empty file smaller than the minimum valid size
stays at the cache key, and a later call with the same key is served
that invalid file as a cache hit. -/
theorem synth_validation_failure_cleanup (cfg : TTSCfg) (text voice : String)
    (sp : Option ℚ) (fs : FS) (r : HttpResp) (rest net2 : List NetEvent)
    (hapi : ¬(cfg.api_url = "" ∨ cfg.api_key = ""))
    (hmiss : fsLookup fs (synthKey cfg text voice sp) = none)
    (h2a : 200 ≤ r.status) (h2b : r.status < 300)
    (haud : is_audio_response r.contentType = true)
    (hsmall : r.bodySize < AUDIO_MIN_VALID_SIZE) :
    (r.bodySize = 0 →
      synth cfg text voice sp fs (.resp r :: rest) = ⟨none, fs, 1, []⟩) ∧
    (0 < r.bodySize →
      synth cfg text voice sp fs (.resp r :: rest) =
        ⟨none, fsWrite fs (synthKey cfg text voice sp) r.bodySize, 1, []⟩) ∧
    (0 < r.bodySize →
      synth cfg text voice sp (fsWrite fs (synthKey cfg text voice sp) r.bodySize) net2 =
        ⟨some (synthKey cfg text voice sp),
          fsWrite fs (synthKey cfg text voice sp) r.bodySize, 0, []⟩) := by
  have hwrite := fsLookup_fsWrite fs (synthKey cfg text voice sp) r.bodySize
  refine ⟨?_, ?_, ?_⟩
  · intro hz
    have hval : validate_audio_file
        (fsWrite fs (synthKey cfg text voice sp) r.bodySize)
          (synthKey cfg text voice sp) = false := by
      unfold validate_audio_file
      rw [hwrite]
      simp [hz]
    have hatt : synthAttempts cfg (synthKey cfg text voice sp) fs (.resp r :: rest) 1 1 =
        ⟨none, fsWrite fs (synthKey cfg text voice sp) r.bodySize, 1, []⟩ := by
      simp only [synthAttempts]
      rw [if_pos ⟨h2a, h2b⟩, if_neg (by simp [haud]), if_pos (by simp [hval])]
    have hclean : fsErase (fsWrite fs (synthKey cfg text voice sp) r.bodySize)
        (synthKey cfg text voice sp) = fs :=
      fsErase_fsWrite fs (synthKey cfg text voice sp) r.bodySize hmiss
    rw [hz] at hwrite hclean hatt
    simp [synth, hapi, cacheHit, hmiss, hatt, hwrite, hclean]
  · intro hpos
    have hval : validate_audio_file
        (fsWrite fs (synthKey cfg text voice sp) r.bodySize)
          (synthKey cfg text voice sp) = false := by
      unfold validate_audio_file
      rw [hwrite]
      simp [show ¬ r.bodySize = 0 by omega, hsmall]
    have hatt : synthAttempts cfg (synthKey cfg text voice sp) fs (.resp r :: rest) 1 1 =
        ⟨none, fsWrite fs (synthKey cfg text voice sp) r.bodySize, 1, []⟩ := by
      simp only [synthAttempts]
      rw [if_pos ⟨h2a, h2b⟩, if_neg (by simp [haud]), if_pos (by simp [hval])]
    have hnz : ¬ fsLookup (fsWrite fs (synthKey cfg text voice sp) r.bodySize)
        (synthKey cfg text voice sp) = some 0 := by
      rw [hwrite]
      simp
      omega
    simp [synth, hapi, cacheHit, hmiss, hatt, hnz]
  · intro hpos
    simp [synth, hapi, cacheHit, hwrite, hpos]

/-- Witness for the amended C5: a 50-byte invalid download stays on
disk and the next call is served it as a cache hit. -/
theorem synth_validation_failure_cleanup_witness :
    synth cfgW "hi" "v" none (fsWrite [] keyW 50) [] = ⟨some keyW, fsWrite [] keyW 50, 0, []⟩ :=
  (synth_validation_failure_cleanup cfgW "hi" "v" none [] ⟨200, "audio/mpeg", 50⟩ [] []
    (by decide) (by decide) (by decide) (by decide) (by decide) (by decide)).2.2 (by decide)

/-- C6: on HTTP 429/5xx responses or network exceptions `synth` retries
with doubling backoff capped at 8 up to `max_retries` additional
attempts after the first, then returns `None` (the model is a total
function: no exception reaches the caller); on any other non-2xx status
it fails immediately with a single request and no retry sleeps. -/
theorem synth_retry_policy (cfg : TTSCfg) (text voice : String) (sp : Option ℚ) (fs : FS)
    (hapi : ¬(cfg.api_url = "" ∨ cfg.api_key = ""))
    (hmiss : fsLookup fs (synthKey cfg text voice sp) = none) :
    (∀ net, (∀ ev ∈ net, retryable_event ev = true) →
      cfg.max_retries + 1 ≤ net.length →
      synth cfg text voice sp fs net =
        ⟨none, fs, cfg.max_retries + 1, capSeq 1 cfg.max_retries⟩) ∧
    (∀ (r : HttpResp) rest, ¬(200 ≤ r.status ∧ r.status < 300) →
      ¬(r.status = 429 ∨ (500 ≤ r.status ∧ r.status < 600)) →
      synth cfg text voice sp fs (.resp r :: rest) = ⟨none, fs, 1, []⟩) := by
  constructor
  · intro net hretr hlen
    have hatt := synthAttempts_retryable cfg (synthKey cfg text voice sp) fs net 1 1
      hretr (by omega) (by omega)
    have h1 : cfg.max_retries + 1 - 1 = cfg.max_retries := by omega
    rw [h1] at hatt
    have hnz : ¬ fsLookup fs (synthKey cfg text voice sp) = some 0 := by
      rw [hmiss]
      simp
    simp [synth, hapi, cacheHit, hmiss, hatt, hnz]
  · intro r rest h2xx hretry
    have hatt : synthAttempts cfg (synthKey cfg text voice sp) fs (.resp r :: rest) 1 1 =
        ⟨none, fs, 1, []⟩ := by
      simp only [synthAttempts]
      rw [if_neg h2xx, if_neg (by intro hc; exact hretry hc.1)]
    have hnz : ¬ fsLookup fs (synthKey cfg text voice sp) = some 0 := by
      rw [hmiss]
      simp
    simp [synth, hapi, cacheHit, hmiss, hatt, hnz]

/-- Witness for C6: with two retries configured, three network
exceptions produce three requests, sleeps of 1 s then 2 s, and a `None`
result. -/
theorem synth_retry_policy_witness :
    synth cfgW "hi" "v" none [] [.exn, .exn, .exn] = ⟨none, [], 3, capSeq 1 2⟩ :=
  (synth_retry_policy cfgW "hi" "v" none [] (by decide) (by decide)).1
    [.exn, .exn, .exn] (by decide) (by decide)
